import Mathlib

/-!
Shallow embedding of parts of the arachnid cryo-EM toolkit
(`app/align_frames.py`, `app/diffclean.py`, `core/image/ctf/estimate2d.py`,
`core/image/formats/eman_format.py`, `core/gui/ImageViewer.py`) together
with theorems settling the specification's claims about it.

Machine floats are modelled by exact rationals.  A Python
`ZeroDivisionError` is modelled by an `Option`/`Except` result, and a
raised `ValueError`/`IOError` by an `Except.error` value.
-/

/-- Division as in Python: `a / b` raises `ZeroDivisionError` when `b = 0`,
modelled as `none`. -/
def pydiv (a b : ℚ) : Option ℚ := if b = 0 then none else some (a / b)

/-- Python list slicing `l[a:b]` for nonnegative bounds. -/
def pyslice {α : Type} (l : List α) (a b : ℕ) : List α := (l.take b).drop a

/-- Insertion of an element into a list by a boolean comparison. -/
def insertByLe {α : Type} (le : α → α → Bool) (a : α) : List α → List α
  | [] => [a]
  | b :: l => if le a b then a :: b :: l else b :: insertByLe le a l

/-- Insertion sort by a boolean comparison; used to model the sorted orders
produced by `numpy.unique` and `numpy.argsort`. -/
def sortByLe {α : Type} (le : α → α → Bool) : List α → List α
  | [] => []
  | a :: l => insertByLe le a (sortByLe le l)

/-! ## `align_frames.py` -/

/-- Embedding of `align_frames.get_window` (align_frames.py:524-535).
`shape` is `(avg.shape[0], avg.shape[1])`, i.e. (height, width); `crop` is
the crop list.  Width and height start at the sentinel `-1`, are overwritten
by `crop[2]`/`crop[3]` when present, and a remaining `-1` selects the full
image dimension. -/
def get_window (shape : ℕ × ℕ) (crop : List Int) : Int × Int × Int × Int :=
  let x : Int := if 0 < crop.length then crop.getD 0 0 else 0
  let y : Int := if 1 < crop.length then crop.getD 1 0 else 0
  let w : Int := if 2 < crop.length then crop.getD 2 (-1) else -1
  let h : Int := if 3 < crop.length then crop.getD 3 (-1) else -1
  let w : Int := if w = -1 then (shape.2 : Int) else w
  let h : Int := if h = -1 then (shape.1 : Int) else h
  (x, y, w, h)

/-- The frame-pair list built by `align_frames.align_l2`
(align_frames.py:357-389): all pairs `(i, j)` with `0 ≤ i < n - 1` and
`i + gap ≤ j < n`, where `n` is the number of frames. -/
def l2pairs (n gap : ℕ) : List (ℕ × ℕ) :=
  (List.range (n - 1)).flatMap fun i =>
    (List.range' (i + gap) (n - (i + gap))).map fun j => (i, j)

/-- Entry `k` of the design-matrix row for pair `p`, as built by
`align_l2`: `A[row, p[0]:p[1]] = 1` and zero elsewhere. -/
def designEntry (p : ℕ × ℕ) (k : ℕ) : ℚ :=
  if p.1 ≤ k ∧ k < p.2 then 1 else 0

/-- Dot product of the design row for pair `p` with an increment vector `x`
(the design matrix has `n - 1` columns). -/
def rowDot (n : ℕ) (p : ℕ × ℕ) (x : ℕ → ℚ) : ℚ :=
  ∑ k in Finset.range (n - 1), designEntry p k * x k

/-- Sum of squared residuals of the system `A·x = b` solved by `align_l2`,
where `b` holds the exact pairwise shifts `t j - t i` of the absolute
translations `t` (the claim's no-noise premise).  The code's `b` is a
two-column array solved column by column, so one rational coordinate is
modelled; the other coordinate is the same statement. -/
def l2ssr (n gap : ℕ) (t x : ℕ → ℚ) : ℚ :=
  ((l2pairs n gap).map fun p => (rowDot n p x - (t p.2 - t p.1)) ^ 2).sum

/-- Squared Euclidean norm of an increment vector over the `n - 1` design
columns. -/
def l2sqnorm (n : ℕ) (x : ℕ → ℚ) : ℚ := ∑ k in Finset.range (n - 1), x k ^ 2

/-- Characterization of `numpy.linalg.lstsq`, used by `align_l2`: it returns
a least-squares solution of the system, of minimum Euclidean norm among all
least-squares solutions. -/
def IsL2Solution (n gap : ℕ) (t x : ℕ → ℚ) : Prop :=
  (∀ y, l2ssr n gap t x ≤ l2ssr n gap t y) ∧
  (∀ y, l2ssr n gap t y ≤ l2ssr n gap t x → l2sqnorm n x ≤ l2sqnorm n y)

/-- The cumulative sum performed by `align_l2` after the solve:
`trans[0] = (0,0)` and `trans[m] = x[0] + ... + x[m-1]` (one coordinate
modelled). -/
def l2trans (x : ℕ → ℚ) (m : ℕ) : ℚ := ∑ k in Finset.range m, x k

/-- Absolute translations of the round-trip counterexample: frame 0 at rest
and frames 1..5 shifted by one pixel (one coordinate of the 2-D shifts). -/
def tEx : ℕ → ℚ := fun m => if m = 0 then 0 else 1

/-- The minimum-norm increment vector the least-squares solve returns for
`tEx` with 6 frames and gap 5: uniform increments of 1/5. -/
def xEx : ℕ → ℚ := fun _ => 1 / 5

/-! ## `diffclean.py` -/

/-- Embedding of `diffclean.resolution_from_order` (diffclean.py:335-361).
The guard `if order == 0 or 1 == 1: return resolution` is literally always
true, so the input `resolution` is returned unchanged; the angular-increment
branch below it is dead code (both branches therefore agree here). -/
def resolution_from_order (apix pixel_diameter : ℚ) (order : Int)
    (resolution : ℚ) : ℚ :=
  if order = 0 ∨ 1 = 1 then resolution else resolution

/-- Embedding of `diffclean.decimation_level` (diffclean.py:387-408):
`dec = resolution/(apix*3)`, `d = window/dec + 10`, `d = window/d`, clamped
to `[1, 8]`.  `none` models a Python `ZeroDivisionError`. -/
def decimation_level (apix window pixel_diameter : ℚ) (order : Int)
    (resolution0 : ℚ) : Option ℚ :=
  (pydiv (resolution_from_order apix pixel_diameter order resolution0)
      (apix * 3)).bind fun dec =>
    (pydiv window dec).bind fun d =>
      (pydiv window (d + 10)).map fun d2 => min (max d2 1) 8

/-- The elementwise acceptance step of `diffclean.one_class_classification`
(diffclean.py:271-306): `sel = dist < cut`. -/
def one_class_sel (dist : List ℚ) (cut : ℚ) : List Bool :=
  dist.map fun d => decide (d < cut)

/-- Embedding of `diffclean.one_class_classification` (diffclean.py:271-306).
The robust-covariance fit (`MinCovDet`, falling back to
`EmpiricalCovariance`) and the Mahalanobis distances from the feature-wise
median are computed from the first `neig` feature columns only and never
read `prob_reject`; that opaque numerical step is abstracted by the
`mahalanobis` argument.  `chi2ppf` abstracts `scipy.stats.chi2.ppf` at the
fixed degrees of freedom.  Returns `(sel, rsel, dist)` with `rsel = sel`. -/
def one_class_classification (mahalanobis : List (List ℚ) → List ℚ)
    (chi2ppf : ℚ → ℚ) (feat : List (List ℚ)) (neig : ℕ) (prob_reject : ℚ) :
    List Bool × List Bool × List ℚ :=
  let featn := feat.map fun row => row.take neig
  let dist := mahalanobis featn
  let cut := chi2ppf prob_reject
  let sel := one_class_sel dist cut
  (sel, sel, dist)

/-- Number of accepted particles: `numpy.sum(sel)`. -/
def acceptedCount (sel : List Bool) : ℕ := sel.count true

/-- `numpy.unique`: the sorted distinct values of an integer array. -/
def npunique (l : List Int) : List Int :=
  sortByLe (fun a b => decide (a ≤ b)) l.dedup

/-- Boolean-mask selection `xs[sel]` with the mask `ref == r`. -/
def maskSelect {α : Type} (xs : List α) (ref : List Int) (r : Int) : List α :=
  ((xs.zip ref).filter fun p => decide (p.2 = r)).map Prod.fst

/-- Positions of the true entries of a boolean mask (`numpy.argwhere` on a
1-D mask, flattened). -/
def argwhere (sel : List Bool) : List ℕ :=
  ((List.range sel.length).zip sel).filterMap fun p =>
    if p.2 then some p.1 else none

/-- Iteration over `numpy.argwhere(sel).squeeze()`: with exactly one match
the squeeze yields a 0-d array, and iterating it raises
`TypeError: iteration over a 0-d array`, modelled as `none`.  With zero or
two or more matches the index list is iterated normally. -/
def argwhereSqueezeIter (sel : List Bool) : Option (List ℕ) :=
  let idx := argwhere sel
  if idx.length = 1 then none else some idx

/-- Labels as received by `group_by_reference`: either the tuple style
`(filename, label-array)` or the list style (a plain list of rows). -/
inductive GroupLabel (α : Type) : Type
  | tup (filename : String) (label : List α)
  | lst (label : List α)

/-- Embedding of `diffclean.group_by_reference` (diffclean.py:544-580).
Views are the distinct values of `ref`; tuple-style labels are selected per
view by a boolean mask (`label[sel]`), while list-style labels are gathered
by iterating `numpy.argwhere(sel).squeeze()`, which raises (modelled
`none`) for a view with exactly one member. -/
def group_by_reference {α β : Type} (label : GroupLabel α) (align : List β)
    (ref : List Int) : Option (List (Int × List α × List β)) :=
  let refs := npunique ref
  match label with
  | .tup _ lab =>
      some (refs.map fun r => (r, maskSelect lab ref r, maskSelect align ref r))
  | .lst lab =>
      refs.mapM fun r => do
        let idx ← argwhereSqueezeIter (ref.map fun v => decide (v = r))
        return (r, idx.filterMap (fun i => lab.get? i), maskSelect align ref r)

/-- Number of particles of one view group, as counted in `init_root`:
`len(group[i][1][1])` for tuple-style labels or `len(group[i][1])` for
list-style labels — both are the length of the label component. -/
def groupSize {α β : Type} (g : Int × List α × List β) : ℕ := g.2.1.length

/-- Embedding of the small-view filtering of `diffclean.init_root`
(diffclean.py:647-659, the branch without a forced single view): the groups
are ordered by particle count (`numpy.argsort` traversed in reverse, i.e.
descending) and a group is appended to the kept list exactly when its count
is strictly greater than 20. -/
def init_root_keep_groups {α β : Type} (groups : List (Int × List α × List β)) :
    List (Int × List α × List β) :=
  (sortByLe (fun a b => decide (groupSize b ≤ groupSize a)) groups).filter
    fun g => decide (20 < groupSize g)

/-! ## `estimate2d.py` -/

/-- The invalid-parameter failure of `search_model_2d`:
`ValueError("Increase rmax, rmin cannot be greater than 50")`. -/
inductive CtfError : Type
  | increaseRmax
deriving DecidableEq

/-- Embedding of the parameter-validation and unit-handling opening of
`estimate2d.search_model_2d` (estimate2d.py:32-37): swap so that
`rmin ≥ rmax`, swap so that `dfmin ≤ dfmax`, clamp `rmin` to at most 50 Å,
raise when `rmax > rmin` still holds, then scale the pixel size by `pad`.
Returns `(dfmin, dfmax, rmin, rmax, apix*pad)` as they stand before the
conversion of the radii to frequencies. -/
def search_model_2d_check (dfmin dfmax rmin rmax apix pad : ℚ) :
    Except CtfError (ℚ × ℚ × ℚ × ℚ × ℚ) :=
  let rr : ℚ × ℚ := if rmin < rmax then (rmax, rmin) else (rmin, rmax)
  let dd : ℚ × ℚ := if dfmax < dfmin then (dfmax, dfmin) else (dfmin, dfmax)
  let rmin := if 50 < rr.1 then 50 else rr.1
  let rmax := rr.2
  if rmin < rmax then Except.error CtfError.increaseRmax
  else Except.ok (dd.1, dd.2, rmin, rmax, apix * pad)

/-! ## `eman_format.py` -/

/-- The EMAN2/Sparx image types relevant to the write path. -/
inductive ImageType : Type
  | MRC
  | SPIDER
  | SINGLE_SPIDER
  | UNKNOWN
  | OTHER
deriving DecidableEq

/-- A filename argument: either a path string or a stream object (which the
adapter cannot handle). -/
inductive FileArg : Type
  | path (name : String)
  | stream

/-- Failures raised by the format adapter: `ValueError` for a stream
argument, `IOError` for an unrecognized format or an out-of-range index. -/
inductive AdapterError : Type
  | invalidParameter
  | formatNotSupported
  | indexOutOfRange
deriving DecidableEq

/-- The file-system facts the adapter operations consult. -/
structure EmanFS : Type where
  readable : String → Bool
  imageCount : String → ℕ

/-- The stream guard opening every adapter operation:
`try: "+"+filename / except: raise ValueError(...)` — string concatenation
fails for a non-string stream object, which is rejected before any file
access. -/
def require_path (f : FileArg) : Except AdapterError String :=
  match f with
  | .path s => Except.ok s
  | .stream => Except.error AdapterError.invalidParameter

/-- Embedding of `eman_format.read_image` (eman_format.py:130-166), up to
the pixel data: returns the index actually read (0 when `index` is None). -/
def read_image (fs : EmanFS) (f : FileArg) (index : Option ℕ) :
    Except AdapterError ℕ := do
  let s ← require_path f
  if ¬ fs.readable s then throw AdapterError.formatNotSupported
  return index.getD 0

/-- Embedding of `eman_format.count_images` (eman_format.py:202-219). -/
def count_images (fs : EmanFS) (f : FileArg) : Except AdapterError ℕ := do
  let s ← require_path f
  if ¬ fs.readable s then throw AdapterError.formatNotSupported
  return fs.imageCount s

/-- Embedding of `eman_format.iter_images` (eman_format.py:167-201): the
list of indices the generator yields, from `index` (default 0) up to the
image count, after the stream, readability and range checks. -/
def iter_images (fs : EmanFS) (f : FileArg) (index : Option ℕ) :
    Except AdapterError (List ℕ) := do
  let s ← require_path f
  if ¬ fs.readable s then throw AdapterError.formatNotSupported
  let start := index.getD 0
  let count ← count_images fs f
  if start ≥ count then throw AdapterError.indexOutOfRange
  return List.range' start (count - start)

/-- Result of the write path of `eman_format.write_image`: the format and
stack index actually written, whether the vertical MRC flip was applied, and
the byte offset patched with a `float` 0.0 after the native write (if any). -/
structure WriteOutcome : Type where
  type : ImageType
  index : ℕ
  flippedY : Bool
  patchOffset : Option ℕ
deriving DecidableEq

/-- The type/index resolution of `eman_format.write_image`
(eman_format.py:241-292): the type defaults to the extension-derived type,
`UNKNOWN` is demoted to SPIDER stack, a SPIDER stack write with no index is
demoted to single-image SPIDER, a missing index becomes 0, MRC writes are
vertically flipped, and after the native write every single-SPIDER file is
patched at byte offset `26*4` with a `float` 0.0. -/
def write_outcome (extType : ImageType) (givenType : Option ImageType)
    (index : Option ℕ) : WriteOutcome :=
  let ty := givenType.getD extType
  let flipped := ty = ImageType.MRC
  let ty := if ty = ImageType.UNKNOWN then ImageType.SPIDER else ty
  let ti : ImageType × ℕ :=
    match index with
    | none => (if ty = ImageType.SPIDER then ImageType.SINGLE_SPIDER else ty, 0)
    | some i => (ty, i)
  ⟨ti.1, ti.2, decide flipped,
    if ti.1 = ImageType.SINGLE_SPIDER then some (26 * 4) else none⟩

/-- Embedding of `eman_format.write_image` (eman_format.py:241-292): the
stream guard followed by the type/index resolution and write. -/
def write_image (f : FileArg) (extType : ImageType)
    (givenType : Option ImageType) (index : Option ℕ) :
    Except AdapterError WriteOutcome := do
  let _ ← require_path f
  return write_outcome extType givenType index

/-! ## `ImageViewer.py` -/

/-- Embedding of `ImageViewer.imageSubset` (ImageViewer.py:508-514): the
slice `file_index[index*count:(index+1)*count]` together with the start
offset `index*count`.  (In "average" mode the same slicing is applied to
the file list instead.) -/
def imageSubset {α : Type} (file_index : List α) (index count : ℕ) :
    List α × ℕ :=
  (pyslice file_index (index * count) ((index + 1) * count), index * count)

/-- Embedding of `ImageViewer.imageTotal` (ImageViewer.py:516-523). -/
def imageTotal {α : Type} (file_index : List α) : ℕ := file_index.length

/-- Modelled from the spec: the page spin box is declared in the Qt `.ui`
file, which is not part of the given source; per the spec's
reset-to-page-1 behaviour its minimum is 1, and `QSpinBox.setValue` clamps
the assigned value to the minimum. -/
def pageSpinBoxSetValue (v : ℕ) : ℕ := max 1 v

/-- Embedding of the page-selection logic of
`ImageViewer.on_loadImagesPushButton_clicked` (ImageViewer.py:376-390): the
1-based page and the page size feed `imageSubset`; when the subset comes
back empty the page spin box is set to 0 (clamped to its minimum), the
page-size spin box to 1, and the first page of size 1 is fetched instead.
Returns the fetched subset with its offset, and the resulting page and
page-size spin-box values. -/
def on_loadImages {α : Type} (file_index : List α) (page count : ℕ) :
    (List α × ℕ) × ℕ × ℕ :=
  let r := imageSubset file_index (page - 1) count
  if r.1.isEmpty then
    (imageSubset file_index 0 1, pageSpinBoxSetValue 0, 1)
  else (r, page, count)

/-! ## Helper lemmas -/

lemma mem_insertByLe {α : Type} {le : α → α → Bool} {a x : α} {l : List α} :
    x ∈ insertByLe le a l ↔ x = a ∨ x ∈ l := by
  induction l with
  | nil => simp [insertByLe]
  | cons b l ih =>
    simp only [insertByLe]
    split_ifs <;> simp [ih, List.mem_cons] <;> tauto

lemma mem_sortByLe {α : Type} {le : α → α → Bool} {x : α} {l : List α} :
    x ∈ sortByLe le l ↔ x ∈ l := by
  induction l with
  | nil => simp [sortByLe]
  | cons a l ih => simp [sortByLe, mem_insertByLe, ih]

lemma acceptedCount_sel_mono (dist : List ℚ) {c1 c2 : ℚ} (h : c1 ≤ c2) :
    acceptedCount (one_class_sel dist c1) ≤ acceptedCount (one_class_sel dist c2) := by
  unfold acceptedCount one_class_sel
  rw [List.count_eq_countP, List.count_eq_countP, List.countP_map, List.countP_map]
  apply List.countP_mono_left
  intro a _ ha
  simp only [Function.comp, beq_iff_eq, decide_eq_true_eq] at ha ⊢
  exact lt_of_lt_of_le ha h

/-! ## Theorems for the claims -/

/-- C7 counterexample: a four-entry crop list whose width/height entries are
the sentinel `-1` is not returned verbatim — `get_window` substitutes the
full image dimensions for them, so the claim's "four entries verbatim, for
every four-entry crop list" fails on crop `[1, 2, -1, -1]` of a 10×12
image. -/
theorem get_window_cex :
    get_window (10, 12) [1, 2, -1, -1] = (1, 2, 12, 10) ∧
    ((1 : Int), (2 : Int), (12 : Int), (10 : Int)) ≠ ((1 : Int), 2, -1, -1) := by
  exact ⟨rfl, by decide⟩

/-- C7 (amended): `get_window` with an empty crop list returns
`(0, 0, full width, full height)`; with a two-entry crop list `[x, y]` it
returns `(x, y, full width, full height)`; with a four-entry crop list it
returns the four entries verbatim except that a width or height entry equal
to the sentinel `-1` is replaced by the full image width or height. -/
theorem get_window_crop_semantics (shape : ℕ × ℕ) (a b c d : Int) :
    get_window shape [] = (0, 0, (shape.2 : Int), (shape.1 : Int)) ∧
    get_window shape [a, b] = (a, b, (shape.2 : Int), (shape.1 : Int)) ∧
    get_window shape [a, b, c, d] =
      (a, b, if c = -1 then (shape.2 : Int) else c,
        if d = -1 then (shape.1 : Int) else d) := by
  refine ⟨rfl, rfl, ?_⟩
  simp only [get_window, List.length_cons, List.getD]
  norm_num

/-- C3 counterexample: a view group with exactly 20 members is dropped by
the `init_root` filtering, contradicting the claim that every group with 20
or more members is retained. -/
theorem init_root_keep_groups_cex :
    groupSize ((0 : Int), (List.range 20).map (fun i => ((0 : ℕ), i)), ([] : List ℚ)) = 20 ∧
    init_root_keep_groups
      [((0 : Int), (List.range 20).map (fun i => ((0 : ℕ), i)), ([] : List ℚ))] = [] := by
  exact ⟨rfl, rfl⟩

/-- C3 (amended): in the particle-cleaning setup (`init_root`, no forced
single view), a view group is retained for processing exactly when it has
strictly more than 20 members; groups with 20 or fewer members — including
exactly 20 — are dropped. -/
theorem init_root_keep_groups_iff {α β : Type} (groups : List (Int × List α × List β))
    (g : Int × List α × List β) :
    g ∈ init_root_keep_groups groups ↔ g ∈ groups ∧ 20 < groupSize g := by
  unfold init_root_keep_groups
  rw [List.mem_filter, mem_sortByLe]
  simp

/-- C2 (code bug): with list-style labels, a view containing exactly one
particle makes `group_by_reference` fail instead of placing that particle in
a group: `numpy.argwhere(sel).squeeze()` is a 0-d array for a single match
and iterating it raises `TypeError`, modelled here as a `none` result on a
two-particle input whose two views hold one particle each. -/
theorem group_by_reference_singleton_fails :
    group_by_reference (GroupLabel.lst [((0 : ℕ), (0 : ℕ)), (0, 1)])
      ([[0], [1]] : List (List ℚ)) [0, 1] = none := by
  rfl

/-- C4: for a fixed feature matrix and fixed `neig`, increasing
`prob_reject` never decreases the number of particles accepted by
`one_class_classification`: the Mahalanobis distances are computed before
and independently of `prob_reject`, acceptance is `dist < cut` with
`cut = chi2.ppf(prob_reject, neig)`, and the chi-squared quantile is
monotone in the probability (hypothesis `hppf`). -/
theorem one_class_classification_monotone (mahalanobis : List (List ℚ) → List ℚ)
    (chi2ppf : ℚ → ℚ) (hppf : Monotone chi2ppf) (feat : List (List ℚ)) (neig : ℕ)
    (p1 p2 : ℚ) (hp : p1 ≤ p2) :
    acceptedCount (one_class_classification mahalanobis chi2ppf feat neig p1).1 ≤
      acceptedCount (one_class_classification mahalanobis chi2ppf feat neig p2).1 :=
  acceptedCount_sel_mono _ (hppf hp)

/-- Witness for C4 at a concrete monotone quantile and concrete distances. -/
theorem one_class_classification_monotone_witness :
    acceptedCount (one_class_classification (fun _ => [0, 1, 2]) id [[0]] 2 1).1 ≤
      acceptedCount (one_class_classification (fun _ => [0, 1, 2]) id [[0]] 2 2).1 :=
  one_class_classification_monotone (fun _ => [0, 1, 2]) id monotone_id [[0]] 2 1 2
    (by norm_num)

/-- C5 counterexample: a zero `resolution` input makes `decimation_level`
raise a `ZeroDivisionError` (`window/dec` with `dec = 0`), so it does not
return a value in [1, 8] for every input. -/
theorem decimation_level_cex : decimation_level 1 100 100 0 0 = none := by
  norm_num [decimation_level, resolution_from_order, pydiv]

/-- C5 (amended): whenever `decimation_level` completes without a
`ZeroDivisionError` its result lies in [1, 8]; a zero `resolution` (or zero
`apix`, or `window/dec = -10`) raises instead of returning. -/
theorem decimation_level_bounds (apix window pixel_diameter : ℚ) (order : Int)
    (resolution0 : ℚ) (d : ℚ)
    (h : decimation_level apix window pixel_diameter order resolution0 = some d) :
    1 ≤ d ∧ d ≤ 8 := by
  unfold decimation_level at h
  rw [Option.bind_eq_some] at h
  obtain ⟨dec, -, h⟩ := h
  rw [Option.bind_eq_some] at h
  obtain ⟨d1, -, h⟩ := h
  rw [Option.map_eq_some'] at h
  obtain ⟨d2, -, rfl⟩ := h
  exact ⟨le_min (le_max_right _ _) (by norm_num), min_le_right _ _⟩

/-- Witness for C5 at a concrete non-degenerate input (`apix` 1, window 100,
resolution 30 gives decimation factor 5). -/
theorem decimation_level_bounds_witness : 1 ≤ (5 : ℚ) ∧ (5 : ℚ) ≤ 8 :=
  decimation_level_bounds 1 100 100 0 30 5
    (by norm_num [decimation_level, resolution_from_order, pydiv, min_def, max_def])

/-- C6 counterexample: with `rmin = rmax = 30`, `rmax` is not less than
`rmin` (they are equal, and remain equal after any positive pad-scaled pixel
size is applied), yet `search_model_2d` raises no invalid-parameter error —
the code only raises on the strict comparison, so the claim's "fails exactly
when rmax is not less than rmin" is false at equality. -/
theorem search_model_2d_check_cex :
    search_model_2d_check 1 2 30 30 1 1 = Except.ok (1, 2, 30, 30, 1) := by
  norm_num [search_model_2d_check]

/-- C6 (amended): `search_model_2d` swaps so that `rmin ≥ rmax`, clamps
`rmin` to at most 50 Å, and raises the invalid-parameter error ("increase
rmax") exactly when `rmax` still strictly exceeds the clamped `rmin` —
equivalently, exactly when the smaller of the two input radii exceeds 50 Å.
The check happens before the pad-scaled pixel size is applied, and no error
is raised at equality. -/
theorem search_model_2d_check_semantics (dfmin dfmax rmin rmax apix pad : ℚ) :
    search_model_2d_check dfmin dfmax rmin rmax apix pad =
      (if 50 < min rmin rmax then Except.error CtfError.increaseRmax
       else Except.ok (min dfmin dfmax, max dfmin dfmax,
         min (max rmin rmax) 50, min rmin rmax, apix * pad)) := by
  simp only [search_model_2d_check]
  rcases lt_or_le rmin rmax with h1 | h1 <;> rcases lt_or_le dfmax dfmin with h2 | h2
  · simp only [if_pos h1, if_pos h2, min_def, max_def]
    split_ifs <;> (try dsimp only at *) <;>
      first
        | rfl
        | (exfalso; linarith)
        | (simp only [Except.ok.injEq, Prod.mk.injEq]
           and_intros <;> first | trivial | linarith)
  · simp only [if_pos h1, if_neg (not_lt.mpr h2), min_def, max_def]
    split_ifs <;> (try dsimp only at *) <;>
      first
        | rfl
        | (exfalso; linarith)
        | (simp only [Except.ok.injEq, Prod.mk.injEq]
           and_intros <;> first | trivial | linarith)
  · simp only [if_neg (not_lt.mpr h1), if_pos h2, min_def, max_def]
    split_ifs <;> (try dsimp only at *) <;>
      first
        | rfl
        | (exfalso; linarith)
        | (simp only [Except.ok.injEq, Prod.mk.injEq]
           and_intros <;> first | trivial | linarith)
  · simp only [if_neg (not_lt.mpr h1), if_neg (not_lt.mpr h2), min_def, max_def]
    split_ifs <;> (try dsimp only at *) <;>
      first
        | rfl
        | (exfalso; linarith)
        | (simp only [Except.ok.injEq, Prod.mk.injEq]
           and_intros <;> first | trivial | linarith)

/-- C8: `write_image` demotes a SPIDER-stack write with no explicit index to
single-image SPIDER with index 0 (whether the stack type was requested
explicitly or derived from the extension), and patches byte offset
104 = 26×4 with a 4-byte float 0.0 after the native write exactly when the
written format is single-image SPIDER. -/
theorem write_image_spider_patch (name : String) (extType : ImageType)
    (givenType : Option ImageType) (index : Option ℕ) :
    write_image (FileArg.path name) extType (some ImageType.SPIDER) none =
      Except.ok ⟨ImageType.SINGLE_SPIDER, 0, false, some (26 * 4)⟩ ∧
    write_image (FileArg.path name) ImageType.SPIDER none none =
      Except.ok ⟨ImageType.SINGLE_SPIDER, 0, false, some (26 * 4)⟩ ∧
    (write_outcome extType givenType index).patchOffset =
      (if (write_outcome extType givenType index).type = ImageType.SINGLE_SPIDER
       then some (26 * 4) else none) := by
  refine ⟨rfl, rfl, ?_⟩
  rcases givenType with _ | g <;> rcases index with _ | i <;>
    first
      | (cases extType <;> rfl)
      | (cases g <;> rfl)

/-- C10: every file-taking adapter operation — `read_image`, `iter_images`,
`count_images` and `write_image` — rejects a non-string stream argument with
the invalid-parameter error, and does so for every file-system state, i.e.
before any file access is attempted. -/
theorem adapter_stream_rejected (fs : EmanFS) (index : Option ℕ)
    (extType : ImageType) (givenType : Option ImageType) :
    read_image fs FileArg.stream index = Except.error AdapterError.invalidParameter ∧
    iter_images fs FileArg.stream index = Except.error AdapterError.invalidParameter ∧
    count_images fs FileArg.stream = Except.error AdapterError.invalidParameter ∧
    write_image FileArg.stream extType givenType index =
      Except.error AdapterError.invalidParameter :=
  ⟨rfl, rfl, rfl, rfl⟩

/-- C9: every entry `imageSubset` returns comes from the file index (no
out-of-range entry), and when the requested 1-based page exceeds the item
count the subset is empty and the page-load handler resets to page 1 with
page size 1, re-fetching the first item. -/
theorem viewer_page_bounds (l : List ℕ) (page count : ℕ) :
    (∀ x ∈ (imageSubset l (page - 1) count).1, x ∈ l) ∧
    (imageTotal l < page →
      (imageSubset l (page - 1) count).1 = [] ∧
      on_loadImages l page count = ((l.take 1, 0), 1, 1)) := by
  constructor
  · intro x hx
    unfold imageSubset pyslice at hx
    exact List.mem_of_mem_take (List.mem_of_mem_drop hx)
  · intro hpage
    have hempty : (imageSubset l (page - 1) count).1 = [] := by
      unfold imageSubset pyslice
      apply List.drop_eq_nil_of_le
      rcases Nat.eq_zero_or_pos count with rfl | hc
      · simp
      · calc (l.take ((page - 1 + 1) * count)).length ≤ l.length := by
              simp [List.length_take]
          _ ≤ page - 1 := by unfold imageTotal at hpage; omega
          _ ≤ (page - 1) * count := Nat.le_mul_of_pos_right _ hc
    refine ⟨hempty, ?_⟩
    simp only [on_loadImages, hempty, List.isEmpty_nil, if_true]
    simp [imageSubset, pyslice, pageSpinBoxSetValue]

/-- Witness for C9: one file-index entry, requested page 2 of size 3. -/
theorem viewer_page_bounds_witness :
    (∀ x ∈ (imageSubset [7] (2 - 1) 3).1, x ∈ [7]) ∧
    ((imageSubset [7] (2 - 1) 3).1 = [] ∧
      on_loadImages [7] 2 3 = (([7].take 1, 0), 1, 1)) :=
  ⟨(viewer_page_bounds [7] 2 3).1, (viewer_page_bounds [7] 2 3).2 (by decide)⟩

/-! ## Claim C1: the L2 alignment round-trip -/

lemma l2pairs_mem_iff {n gap i j : ℕ} :
    (i, j) ∈ l2pairs n gap ↔ i < n - 1 ∧ i + gap ≤ j ∧ j < n := by
  unfold l2pairs
  simp only [List.mem_flatMap, List.mem_map, List.mem_range, List.mem_range'_1]
  constructor
  · rintro ⟨a, ha, b, hb, hab⟩
    simp only [Prod.mk.injEq] at hab
    obtain ⟨rfl, rfl⟩ := hab
    omega
  · rintro ⟨h1, h2, h3⟩
    exact ⟨i, h1, j, by omega, rfl⟩

lemma rowDot_eq_sum_Ico {n i j : ℕ} (hj : j ≤ n - 1) (x : ℕ → ℚ) :
    rowDot n (i, j) x = ∑ k in Finset.Ico i j, x k := by
  unfold rowDot designEntry
  have hfil : Finset.filter (fun k => i ≤ k ∧ k < j) (Finset.range (n - 1)) =
      Finset.Ico i j := by
    ext k
    simp only [Finset.mem_filter, Finset.mem_range, Finset.mem_Ico]
    omega
  simp only [ite_mul, one_mul, zero_mul]
  rw [← Finset.sum_filter, hfil]

lemma sum_Ico_increments (t : ℕ → ℚ) {i j : ℕ} (h : i ≤ j) :
    ∑ k in Finset.Ico i j, (t (k + 1) - t k) = t j - t i := by
  induction j, h using Nat.le_induction with
  | base => simp
  | succ j hj ih =>
    rw [Finset.sum_Ico_succ_top (by omega), ih]
    ring

lemma list_sum_nonneg_all_zero {l : List ℚ} (h0 : ∀ a ∈ l, 0 ≤ a)
    (h : l.sum ≤ 0) : ∀ a ∈ l, a = 0 := by
  induction l with
  | nil => simp
  | cons b l ih =>
    have hb : 0 ≤ b := h0 b (List.mem_cons_self b l)
    have hl : 0 ≤ l.sum := List.sum_nonneg fun a ha => h0 a (List.mem_cons_of_mem _ ha)
    rw [List.sum_cons] at h
    intro a ha
    rcases List.mem_cons.mp ha with rfl | ha2
    · linarith
    · exact ih (fun c hc => h0 c (List.mem_cons_of_mem _ hc)) (by linarith) a ha2

lemma l2ssr_nonneg (n gap : ℕ) (t x : ℕ → ℚ) : 0 ≤ l2ssr n gap t x := by
  apply List.sum_nonneg
  intro a ha
  obtain ⟨p, -, rfl⟩ := List.mem_map.mp ha
  positivity

lemma l2ssr_increments (n gap : ℕ) (t : ℕ → ℚ) :
    l2ssr n gap t (fun k => t (k + 1) - t k) = 0 := by
  unfold l2ssr
  apply List.sum_eq_zero
  intro a ha
  obtain ⟨⟨i, j⟩, hp, rfl⟩ := List.mem_map.mp ha
  obtain ⟨h1, h2, h3⟩ := l2pairs_mem_iff.mp hp
  rw [rowDot_eq_sum_Ico (by omega), sum_Ico_increments t (by omega)]
  ring

lemma l2solution_rows {n gap : ℕ} {t x : ℕ → ℚ} (hx : IsL2Solution n gap t x) :
    ∀ p ∈ l2pairs n gap, rowDot n p x = t p.2 - t p.1 := by
  have hle : l2ssr n gap t x ≤ 0 := by
    have h := hx.1 (fun k => t (k + 1) - t k)
    rwa [l2ssr_increments] at h
  intro p hp
  have hz : (rowDot n p x - (t p.2 - t p.1)) ^ 2 = 0 := by
    refine list_sum_nonneg_all_zero ?_ hle _ (List.mem_map_of_mem _ hp)
    intro a ha
    obtain ⟨q, -, rfl⟩ := List.mem_map.mp ha
    positivity
  have h0 := pow_eq_zero_iff (n := 2) (by norm_num) |>.mp hz
  linarith [sub_eq_zero.mp h0]

/-- C1 (amended): the exact L2 alignment round-trip holds whenever the frame
count is at least twice the gap, which makes the 0/1 design matrix have full
column rank: for any absolute translations `t` with `t 0 = 0` and exact
(noise-free) pairwise shifts, every minimum-norm least-squares solution `x`
cumulatively sums back to `t` at every frame.  (For fewer frames the design
matrix is rank deficient and the round-trip can fail; see the
counterexample.) -/
theorem align_l2_roundtrip (n gap : ℕ) (hgap : 1 ≤ gap) (hn : 2 * gap ≤ n)
    (t x : ℕ → ℚ) (ht0 : t 0 = 0) (hx : IsL2Solution n gap t x) :
    ∀ m, m < n → l2trans x m = t m := by
  have hrow := l2solution_rows hx
  have key : ∀ m, gap ≤ m → m < n → l2trans x m = t m := by
    intro m h1 h2
    have hp : (0, m) ∈ l2pairs n gap := l2pairs_mem_iff.mpr ⟨by omega, by omega, h2⟩
    have h3 := hrow _ hp
    rw [rowDot_eq_sum_Ico (by omega)] at h3
    unfold l2trans
    rw [Finset.range_eq_Ico]
    simpa [ht0] using h3
  intro m hm
  rcases Nat.lt_or_ge m gap with hlt | hge
  · rcases Nat.eq_zero_or_pos m with rfl | hpos
    · simp [l2trans, ht0]
    · have hp : (m, m + gap) ∈ l2pairs n gap :=
        l2pairs_mem_iff.mpr ⟨by omega, by omega, by omega⟩
      have h3 := hrow _ hp
      rw [rowDot_eq_sum_Ico (by omega),
        Finset.sum_Ico_eq_sub _ (by omega : m ≤ m + gap)] at h3
      have h4 := key (m + gap) (by omega) (by omega)
      unfold l2trans at *
      linarith
  · exact key m hge hm

lemma l2ssr_two_one (y : ℕ → ℚ) :
    l2ssr 2 1 (fun m => (m : ℚ)) y = (y 0 - 1) ^ 2 := by
  have hpairs : l2pairs 2 1 = [(0, 1)] := rfl
  have hdot : rowDot 2 (0, 1) y = y 0 := by
    simp [rowDot, designEntry, Finset.sum_range_one]
  simp [l2ssr, hpairs, hdot]

lemma l2sqnorm_two (y : ℕ → ℚ) : l2sqnorm 2 y = y 0 ^ 2 := by
  simp [l2sqnorm, Finset.sum_range_one]

lemma l2solution_two_one :
    IsL2Solution 2 1 (fun m => (m : ℚ)) (fun _ => 1) := by
  constructor
  · intro y
    rw [l2ssr_two_one, l2ssr_two_one]
    norm_num
    positivity
  · intro y hy
    rw [l2ssr_two_one, l2ssr_two_one] at hy
    rw [l2sqnorm_two, l2sqnorm_two]
    have h0 : y 0 = 1 := by nlinarith [sq_nonneg (y 0 - 1)]
    norm_num [h0]

/-- Witness for C1 (amended) at 2 frames, gap 1, translations `t m = m`,
increments all 1: the round-trip reproduces `t 1 = 1`. -/
theorem align_l2_roundtrip_witness :
    l2trans (fun _ => (1 : ℚ)) 1 = ((fun m => (m : ℚ)) 1) :=
  align_l2_roundtrip 2 1 (by norm_num) (by norm_num) (fun m => (m : ℚ))
    (fun _ => 1) (by norm_num) l2solution_two_one 1 (by norm_num)

lemma l2ssr_six_five (y : ℕ → ℚ) :
    l2ssr 6 5 tEx y = (y 0 + y 1 + y 2 + y 3 + y 4 - 1) ^ 2 := by
  have hpairs : l2pairs 6 5 = [(0, 5)] := rfl
  have hdot : rowDot 6 (0, 5) y = y 0 + y 1 + y 2 + y 3 + y 4 := by
    simp [rowDot, designEntry, Finset.sum_range_succ]
  simp [l2ssr, hpairs, hdot, tEx]

lemma l2sqnorm_six (y : ℕ → ℚ) :
    l2sqnorm 6 y = y 0 ^ 2 + y 1 ^ 2 + y 2 ^ 2 + y 3 ^ 2 + y 4 ^ 2 := by
  simp [l2sqnorm, Finset.sum_range_succ]

lemma l2solution_six_five : IsL2Solution 6 5 tEx xEx := by
  constructor
  · intro y
    rw [l2ssr_six_five, l2ssr_six_five]
    norm_num [xEx]
    positivity
  · intro y hy
    rw [l2ssr_six_five, l2ssr_six_five] at hy
    rw [l2sqnorm_six, l2sqnorm_six]
    norm_num [xEx] at hy ⊢
    have hs : y 0 + y 1 + y 2 + y 3 + y 4 = 1 := by
      nlinarith [sq_nonneg (y 0 + y 1 + y 2 + y 3 + y 4 - 1), hy]
    nlinarith [sq_nonneg (y 0 - 1/5), sq_nonneg (y 1 - 1/5), sq_nonneg (y 2 - 1/5),
      sq_nonneg (y 3 - 1/5), sq_nonneg (y 4 - 1/5)]

/-- C1 counterexample: with 6 frames and the default gap 5 the claim fails.
The translations `tEx` (frames 1..5 shifted by one pixel) generate exact,
noise-free pairwise shifts, `xEx` (uniform 1/5 increments) is the
minimum-norm least-squares solution the solve returns, yet every such
solution cumulatively sums to 1/5 ≠ 1 at frame 1, so `align_l2` does not
return `tEx`. -/
theorem align_l2_roundtrip_cex :
    IsL2Solution 6 5 tEx xEx ∧
    ∀ x, IsL2Solution 6 5 tEx x → l2trans x 1 ≠ tEx 1 := by
  refine ⟨l2solution_six_five, ?_⟩
  intro x hx
  have h1 : l2ssr 6 5 tEx x ≤ 0 := by
    have h := hx.1 xEx
    rw [l2ssr_six_five xEx] at h
    calc l2ssr 6 5 tEx x ≤ (xEx 0 + xEx 1 + xEx 2 + xEx 3 + xEx 4 - 1) ^ 2 := h
      _ = 0 := by norm_num [xEx]
  have hs : x 0 + x 1 + x 2 + x 3 + x 4 = 1 := by
    rw [l2ssr_six_five] at h1
    nlinarith [sq_nonneg (x 0 + x 1 + x 2 + x 3 + x 4 - 1), h1]
  have hnorm : l2sqnorm 6 x ≤ l2sqnorm 6 xEx := by
    refine hx.2 xEx ?_
    calc l2ssr 6 5 tEx xEx = 0 := by rw [l2ssr_six_five]; norm_num [xEx]
      _ ≤ l2ssr 6 5 tEx x := l2ssr_nonneg 6 5 tEx x
  have hx0 : x 0 = 1 / 5 := by
    rw [l2sqnorm_six, l2sqnorm_six] at hnorm
    norm_num [xEx] at hnorm
    nlinarith [sq_nonneg (x 0 - 1/5), sq_nonneg (x 1 - 1/5), sq_nonneg (x 2 - 1/5),
      sq_nonneg (x 3 - 1/5), sq_nonneg (x 4 - 1/5)]
  have htr : l2trans x 1 = x 0 := by simp [l2trans, Finset.sum_range_one]
  rw [htr, hx0]
  norm_num [tEx]
